import Mathlib

/-!
Verification of the multi-key OpenRouter request scheduler
(`src/services/openrouter_api_manager.py`, class `OpenRouterAPIManager`).

The Python class is embedded shallowly:
- the manager's mutable attributes become the `ManagerState` structure;
  the per-key stats dict is a total function `String → KeyStats` (only pool
  keys are ever consulted), the cooldown dict is `String → Option Nat`
  (`none` = no entry, mirroring membership in `self.key_cooldowns`);
- wall-clock times (`datetime.now()`) become explicit `now : Nat` arguments,
  measured in seconds, so `timedelta(minutes=30)` is `30 * 60`;
- the `while` loop of `_get_next_available_key` is bounded by the pool size
  in the source, so it becomes fuel recursion with fuel = pool size;
- the retry loop of `chat_completion` becomes fuel recursion over
  `maxRetries`; the network call `client.chat.completions.create` is an
  oracle `dispatch : Nat → String → RequestSpec → Except String R` giving
  the outcome of the dispatch made on a given attempt with a given key and
  adjusted request; backoff sleeps do not change any modelled state and are
  represented only through the per-attempt clock `times : Nat → Nat`;
- `str(error).lower()` plus Python's substring test `in` become
  `lowerAscii` / `strContains` over character lists (the error strings the
  classifier looks for are ASCII);
- the float expression `total_errors / total_requests * 100` is modelled
  exactly over `ℚ`.
A ghost trace (one record per dispatch attempt) is threaded through the
retry loop so that attempt counts can be stated; it affects nothing else.
-/

/-- Per-key entry of `self.key_usage_stats` (initialised in `__init__`). -/
structure KeyStats where
  requests : Nat
  errors : Nat
  last_used : Option Nat
  credits_exhausted : Bool
  rate_limited : Bool
deriving Repr, DecidableEq

/-- The fresh stats record `__init__` installs for every key. -/
def freshStats : KeyStats :=
  { requests := 0, errors := 0, last_used := none
    credits_exhausted := false, rate_limited := false }

/-- The manager's mutable attributes. -/
structure ManagerState where
  api_keys : List String
  current_key_index : Nat
  key_usage_stats : String → KeyStats
  key_cooldowns : String → Option Nat

/-- `self.max_retries = 3`. -/
def maxRetries : Nat := 3

/-- `self.retry_delay = 2` (the backoff base; sleeps are not modelled). -/
def retryDelay : Nat := 2

/-- `self.model_fallback_chain` (most desired first). -/
def modelFallbackChain : List String :=
  ["qwen/qwen-2.5-72b-instruct",
   "qwen/qwen-2.5-32b-instruct",
   "meta-llama/llama-3.1-8b-instruct:free",
   "mistralai/mixtral-8x7b-instruct"]

/-- State after `__init__` for a given loaded key list (`__init__` raises
`ValueError` when the list is empty; the claims all assume a non-empty
pool). -/
def initState (keys : List String) : ManagerState :=
  { api_keys := keys, current_key_index := 0
    key_usage_stats := fun _ => freshStats
    key_cooldowns := fun _ => none }

/-- Dict update `self.key_usage_stats[key] = st`. -/
def setStats (s : ManagerState) (key : String) (st : KeyStats) : ManagerState :=
  { s with key_usage_stats := fun k => if k = key then st else s.key_usage_stats k }

/-- Dict update / deletion on `self.key_cooldowns` (`none` deletes). -/
def setCooldown (s : ManagerState) (key : String) (c : Option Nat) : ManagerState :=
  { s with key_cooldowns := fun k => if k = key then c else s.key_cooldowns k }

/-- `_rotate_to_next_key`. -/
def rotateToNextKey (s : ManagerState) : ManagerState :=
  { s with current_key_index := (s.current_key_index + 1) % s.api_keys.length }

/-- `self.api_keys[i]` (the source only ever indexes in bounds, because the
rotation pointer is kept below the pool size). -/
def keyAt (s : ManagerState) (i : Nat) : String :=
  s.api_keys.getD i ""

/-- Loop body of `_get_next_available_key`: scan at most `fuel` candidates
starting at the rotation pointer; skip keys in live cooldown (deleting
expired entries on the way), return the first key with both failure flags
clear.  Returns `none` when the bounded scan finds no candidate. -/
def scanForKey (now : Nat) : ManagerState → Nat → Option String × ManagerState
  | s, 0 => (none, s)
  | s, fuel + 1 =>
    let key := keyAt s s.current_key_index
    let st := s.key_usage_stats key
    match s.key_cooldowns key with
    | some cu =>
      if now < cu then
        scanForKey now (rotateToNextKey s) fuel
      else
        -- cooldown expired: delete the entry, then check the flags
        let s1 := setCooldown s key none
        if !st.credits_exhausted && !st.rate_limited then
          (some key, s1)
        else
          scanForKey now (rotateToNextKey s1) fuel
    | none =>
      if !st.credits_exhausted && !st.rate_limited then
        (some key, s)
      else
        scanForKey now (rotateToNextKey s) fuel

/-- `min(self.api_keys, key=lambda k: self.key_usage_stats[k]['errors'])`:
Python's `min` keeps the first element attaining the minimum. -/
def minErrorsKey (s : ManagerState) : String :=
  match s.api_keys with
  | [] => ""
  | k :: ks =>
    ks.foldl
      (fun best k2 =>
        if (s.key_usage_stats k2).errors < (s.key_usage_stats best).errors then k2 else best)
      k

/-- `_get_next_available_key`: the bounded scan, falling back to the key
with the fewest errors when every candidate is problematic. -/
def getNextAvailableKey (s : ManagerState) (now : Nat) : String × ManagerState :=
  match scanForKey now s s.api_keys.length with
  | (some k, s1) => (k, s1)
  | (none, s1) => (minErrorsKey s1, s1)

/-- The per-candidate usability test of the scan (the spec's
`isUsable(credential, now)`): no live cooldown entry and both failure flags
clear.  Pure: the lazy deletion of expired entries is a side effect of
`scanForKey`, not of this predicate. -/
def isUsable (s : ManagerState) (key : String) (now : Nat) : Bool :=
  (match s.key_cooldowns key with
   | some cu => decide (cu ≤ now)
   | none => true)
  && !(s.key_usage_stats key).credits_exhausted
  && !(s.key_usage_stats key).rate_limited

/-- Does `pat` occur at the start of `l`? (Python `str.startswith`, used to
build the substring test below.) -/
def startsWithChars : List Char → List Char → Bool
  | _, [] => true
  | [], _ :: _ => false
  | c :: cs, p :: ps => c == p && startsWithChars cs ps

/-- Does `pat` occur somewhere in `l`? -/
def hasSubChars : List Char → List Char → Bool
  | [], pat => pat.isEmpty
  | c :: cs, pat => startsWithChars (c :: cs) pat || hasSubChars cs pat

/-- Python's substring test `pat in s`. -/
def strContains (s pat : String) : Bool :=
  hasSubChars s.toList pat.toList

/-- `str.lower()` restricted to ASCII (every pattern the classifier looks
for is ASCII). -/
def lowerAscii (s : String) : String :=
  String.mk (s.toList.map Char.toLower)

/-- The three failure classes of `_handle_api_error` (spec §4.1 taxonomy). -/
inductive ErrClass where
  | insufficientCredits
  | rateLimitedClass
  | otherClass
deriving Repr, DecidableEq

/-- The `if / elif / else` substring classification of `_handle_api_error`,
applied to `str(error).lower()`. -/
def classifyError (err : String) : ErrClass :=
  let e := lowerAscii err
  if strContains e "402" || strContains e "payment required" || strContains e "credit" then
    ErrClass.insufficientCredits
  else if strContains e "429" || strContains e "rate limit" then
    ErrClass.rateLimitedClass
  else
    ErrClass.otherClass

/-- `_handle_api_error`: bump the error counter, then apply the classified
policy (flag + cooldown length). -/
def handleApiError (s : ManagerState) (key : String) (err : String) (now : Nat) :
    ManagerState :=
  let st := s.key_usage_stats key
  let st1 := { st with errors := st.errors + 1 }
  match classifyError err with
  | ErrClass.insufficientCredits =>
    setCooldown (setStats s key { st1 with credits_exhausted := true }) key
      (some (now + 30 * 60))
  | ErrClass.rateLimitedClass =>
    setCooldown (setStats s key { st1 with rate_limited := true }) key
      (some (now + 60))
  | ErrClass.otherClass =>
    setCooldown (setStats s key st1) key (some (now + 30))

/-- The request parameters the degrader looks at (`kwargs.get('model')`,
`kwargs.get('max_tokens')`); everything else in `kwargs` is carried through
untouched and is not modelled. -/
structure RequestSpec where
  model : Option String
  max_tokens : Option Nat
deriving Repr, DecidableEq

/-- The `max_tokens` adjustment of `_maybe_adjust_request`.  `some 0`
behaves like `none` because `if max_tokens:` is false for `0` in Python. -/
def tokenStep (mt : Option Nat) (attempt : Nat) : Option Nat :=
  match mt with
  | none => none
  | some v =>
    if v = 0 then some v
    else if attempt = 1 then some (min v 2048)
    else if attempt = 2 then some (min v 1024)
    else if 3 ≤ attempt then some (min v 512)
    else some v

/-- The model adjustment of `_maybe_adjust_request`: in-chain models step
one rung down while `attempt ≤ 2` and a next rung exists; models absent
from the chain (including an absent `model` key, since `None in chain` is
false) are forced to the chain's head from attempt 1 on. -/
def modelStep (mo : Option String) (attempt : Nat) : Option String :=
  match mo with
  | some m =>
    if modelFallbackChain.contains m then
      if attempt ≤ 2 ∧ modelFallbackChain.indexOf m + 1 < modelFallbackChain.length then
        some (modelFallbackChain.getD (modelFallbackChain.indexOf m + 1) m)
      else some m
    else if 1 ≤ attempt ∧ modelFallbackChain ≠ [] then
      some (modelFallbackChain.getD 0 m)
    else some m
  | none =>
    if 1 ≤ attempt ∧ modelFallbackChain ≠ [] then
      some (modelFallbackChain.getD 0 "")
    else none

/-- `_maybe_adjust_request`: derives a fresh spec (`dict(kwargs)`), applying
the two independent adjustments. -/
def maybeAdjustRequest (spec : RequestSpec) (attempt : Nat) : RequestSpec :=
  { spec with
    max_tokens := tokenStep spec.max_tokens attempt
    model := modelStep spec.model attempt }

/-- The usage recording `chat_completion` performs right before dispatching
(`stats['requests'] += 1; stats['last_used'] = datetime.now()`). -/
def recordUsage (s : ManagerState) (key : String) (now : Nat) : ManagerState :=
  let st := s.key_usage_stats key
  setStats s key { st with requests := st.requests + 1, last_used := some now }

/-- Ghost record of one dispatch attempt: the key used and `some e` when
the dispatch raised `e`, `none` when it returned normally. -/
structure AttemptRec where
  key : String
  outcome : Option String
deriving Repr, DecidableEq

/-- Result of `chat_completion`: the returned response or the re-raised
last error, together with the final manager state and the ghost trace. -/
inductive CCOutcome (R : Type) where
  | success (result : R) (final : ManagerState) (trace : List AttemptRec)
  | failure (lastError : String) (final : ManagerState) (trace : List AttemptRec)

/-- Final manager state of a run. -/
def CCOutcome.finalState {R : Type} : CCOutcome R → ManagerState
  | CCOutcome.success _ s _ => s
  | CCOutcome.failure _ s _ => s

/-- Ghost trace of a run. -/
def CCOutcome.trace {R : Type} : CCOutcome R → List AttemptRec
  | CCOutcome.success _ _ tr => tr
  | CCOutcome.failure _ _ tr => tr

/-- The retry loop of `chat_completion`.  `fuel` is the number of attempts
still allowed, `attempt` the current 0-based attempt number, `lastErr` the
`last_error` local.  Each iteration selects a key, derives the adjusted
request from the caller's original `kwargs`, records usage, dispatches, and
on failure classifies the error and recurses. -/
def chatCompletionAux {R : Type} (dispatch : Nat → String → RequestSpec → Except String R)
    (times : Nat → Nat) (spec : RequestSpec) :
    ManagerState → Nat → Nat → Option String → List AttemptRec → CCOutcome R
  | s, _, 0, lastErr, tr => CCOutcome.failure (lastErr.getD "") s tr
  | s, attempt, fuel + 1, _, tr =>
    let now := times attempt
    let sel := getNextAvailableKey s now
    let adj := maybeAdjustRequest spec attempt
    let s2 := recordUsage sel.2 sel.1 now
    match dispatch attempt sel.1 adj with
    | Except.ok r =>
      CCOutcome.success r (rotateToNextKey s2) (tr ++ [{ key := sel.1, outcome := none }])
    | Except.error e =>
      chatCompletionAux dispatch times spec (handleApiError s2 sel.1 e now)
        (attempt + 1) fuel (some e) (tr ++ [{ key := sel.1, outcome := some e }])

/-- `chat_completion` (the async wrapper delegates to the same loop). -/
def chatCompletion {R : Type} (dispatch : Nat → String → RequestSpec → Except String R)
    (times : Nat → Nat) (spec : RequestSpec) (s : ManagerState) : CCOutcome R :=
  chatCompletionAux dispatch times spec s 0 maxRetries none []

/-- One row of `status['keys_status']` in `get_api_status`. -/
structure KeyStatusEntry where
  index : Nat
  key_preview : String
  requests : Nat
  errors : Nat
  last_used : Option Nat
  credits_exhausted : Bool
  rate_limited : Bool
  in_cooldown : Bool
  available : Bool
  cooldown_until : Option Nat
deriving Repr, DecidableEq

/-- `f"{key[:10]}...{key[-4:]}"`. -/
def keyPreview (key : String) : String :=
  String.mk (key.toList.take 10) ++ "..." ++
    String.mk (key.toList.drop (key.toList.length - 4))

/-- The row built for pool position `i` holding `key`.  Note `available`
tests mere membership in `self.key_cooldowns`, with no expiry check. -/
def keyStatusEntry (s : ManagerState) (i : Nat) (key : String) : KeyStatusEntry :=
  let st := s.key_usage_stats key
  { index := i
    key_preview := keyPreview key
    requests := st.requests
    errors := st.errors
    last_used := st.last_used
    credits_exhausted := st.credits_exhausted
    rate_limited := st.rate_limited
    in_cooldown := (s.key_cooldowns key).isSome
    available := !st.credits_exhausted && !st.rate_limited && (s.key_cooldowns key).isNone
    cooldown_until := s.key_cooldowns key }

/-- `for i, key in enumerate(self.api_keys)` building `keys_status`. -/
def keysStatusList (s : ManagerState) : Nat → List String → List KeyStatusEntry
  | _, [] => []
  | i, k :: ks => keyStatusEntry s i k :: keysStatusList s (i + 1) ks

/-- `status['summary']` in `get_api_status`. -/
structure StatusSummary where
  total_requests : Nat
  total_errors : Nat
  error_rate : ℚ
  available_keys : Nat
  health_status : String
deriving Repr, DecidableEq

/-- The full return value of `get_api_status`. -/
structure ApiStatus where
  total_keys : Nat
  current_key_index : Nat
  keys_status : List KeyStatusEntry
  summary : StatusSummary
deriving Repr, DecidableEq

/-- `get_api_status`.  The totals sum the stats dict's values, i.e. one
entry per distinct pool key; `error_rate` is the percentage
`total_errors / total_requests * 100` (0 when there are no requests). -/
def getApiStatus (s : ManagerState) : ApiStatus :=
  let entries := keysStatusList s 0 s.api_keys
  let distinctKeys := s.api_keys.dedup
  let totalRequests := (distinctKeys.map (fun k => (s.key_usage_stats k).requests)).sum
  let totalErrors := (distinctKeys.map (fun k => (s.key_usage_stats k).errors)).sum
  let availableKeys := entries.countP (fun e => e.available)
  { total_keys := s.api_keys.length
    current_key_index := s.current_key_index
    keys_status := entries
    summary :=
      { total_requests := totalRequests
        total_errors := totalErrors
        error_rate :=
          if 0 < totalRequests then (totalErrors : ℚ) / (totalRequests : ℚ) * 100 else 0
        available_keys := availableKeys
        health_status := if 0 < availableKeys then "healthy" else "degraded" } }

/-- `reset_key_status` for a single valid index. -/
def resetKeyStatus (s : ManagerState) (i : Nat) : ManagerState :=
  if i < s.api_keys.length then
    let key := keyAt s i
    let st := s.key_usage_stats key
    setCooldown (setStats s key { st with credits_exhausted := false, rate_limited := false })
      key none
  else s

/-! ### Helper lemmas -/

/-- Closed form of the `max_tokens` adjustment for a present budget. -/
theorem maybeAdjustRequest_max_tokens (spec : RequestSpec) (b : Nat)
    (hb : spec.max_tokens = some b) (n : Nat) :
    (maybeAdjustRequest spec n).max_tokens =
      some (if n = 1 then min b 2048 else if n = 2 then min b 1024
            else if 3 ≤ n then min b 512 else b) := by
  by_cases h0 : b = 0
  · subst h0
    simp only [maybeAdjustRequest, tokenStep, hb]
    split_ifs <;> simp
  · simp only [maybeAdjustRequest, tokenStep, hb]
    rw [if_neg h0]
    split_ifs <;> rfl

/-- The model adjustment never touches the token budget and vice versa. -/
theorem maybeAdjustRequest_model (spec : RequestSpec) (n : Nat) :
    (maybeAdjustRequest spec n).model = modelStep spec.model n := rfl

/-- Counting available rows in `keys_status` counts pool keys whose flags
are clear and which have no cooldown entry (expired or not). -/
theorem keysStatusList_countP (s : ManagerState) :
    ∀ (l : List String) (i : Nat),
      (keysStatusList s i l).countP (fun e => e.available)
        = l.countP (fun k =>
            !(s.key_usage_stats k).credits_exhausted &&
            !(s.key_usage_stats k).rate_limited && (s.key_cooldowns k).isNone) := by
  intro l
  induction l with
  | nil => intro i; rfl
  | cons k ks ih =>
    intro i
    simp [keysStatusList, List.countP_cons, keyStatusEntry, ih]

/-! ### Test fixtures (concrete states used by witnesses and
counterexamples) -/

/-- A one-key pool whose key has a cooldown entry expiring at time 10 and
both flags clear. -/
def stateCooldown10 : ManagerState :=
  { api_keys := ["k1"], current_key_index := 0
    key_usage_stats := fun _ => freshStats
    key_cooldowns := fun k => if k = "k1" then some 10 else none }

/-- A one-key pool with 2 recorded requests and 1 recorded error. -/
def stateTwoReq : ManagerState :=
  { api_keys := ["k1"], current_key_index := 0
    key_usage_stats := fun k =>
      if k = "k1" then
        { requests := 2, errors := 1, last_used := none
          credits_exhausted := false, rate_limited := false }
      else freshStats
    key_cooldowns := fun _ => none }

/-- A dispatch oracle that fails every attempt with the same error. -/
def alwaysFailDispatch : Nat → String → RequestSpec → Except String Nat :=
  fun _ _ _ => Except.error "boom"

/-- A request with an in-chain model, used by the degrader claims. -/
def specTopModel : RequestSpec :=
  { model := some "qwen/qwen-2.5-72b-instruct", max_tokens := some 4096 }

/-! ### Claims C4, C5, C6, C8, C9, C10 -/

/-- Claim C4: `_handle_api_error` always increments the key's error count
by exactly 1, and applies the per-class policy: an `InsufficientCredits`
error sets `credits_exhausted` and a cooldown expiring 30 minutes after the
failure time, a `RateLimited` error sets `rate_limited` and a 60-second
cooldown, and any other error sets a 30-second cooldown and neither flag
(both flags are left as they were). -/
theorem c4_record_failure_policy (s : ManagerState) (key err : String) (now : Nat) :
    ((handleApiError s key err now).key_usage_stats key).errors
      = (s.key_usage_stats key).errors + 1 ∧
    (classifyError err = ErrClass.insufficientCredits →
      (handleApiError s key err now).key_cooldowns key = some (now + 30 * 60) ∧
      ((handleApiError s key err now).key_usage_stats key).credits_exhausted = true ∧
      ((handleApiError s key err now).key_usage_stats key).rate_limited
        = (s.key_usage_stats key).rate_limited) ∧
    (classifyError err = ErrClass.rateLimitedClass →
      (handleApiError s key err now).key_cooldowns key = some (now + 60) ∧
      ((handleApiError s key err now).key_usage_stats key).rate_limited = true ∧
      ((handleApiError s key err now).key_usage_stats key).credits_exhausted
        = (s.key_usage_stats key).credits_exhausted) ∧
    (classifyError err = ErrClass.otherClass →
      (handleApiError s key err now).key_cooldowns key = some (now + 30) ∧
      ((handleApiError s key err now).key_usage_stats key).credits_exhausted
        = (s.key_usage_stats key).credits_exhausted ∧
      ((handleApiError s key err now).key_usage_stats key).rate_limited
        = (s.key_usage_stats key).rate_limited) := by
  cases hcl : classifyError err <;>
    simp [handleApiError, hcl, setStats, setCooldown]

/-- Witness for C4 at a concrete `Other`-class error. -/
theorem c4_record_failure_policy_witness :
    classifyError "boom" = ErrClass.otherClass ∧
    (handleApiError stateTwoReq "k1" "boom" 7).key_cooldowns "k1" = some (7 + 30) := by
  refine ⟨by decide, ?_⟩
  exact ((c4_record_failure_policy stateTwoReq "k1" "boom" 7).2.2.2 (by decide)).1

/-- Claim C5: for a request carrying an original token budget `b`,
`_maybe_adjust_request` leaves the budget unchanged at attempt 0, caps it
at `min b 2048` at attempt 1, `min b 1024` at attempt 2 and `min b 512`
from attempt 3 on; the budget is monotone non-increasing in the attempt
number and never exceeds `b`. -/
theorem c5_degrade_token_budget (spec : RequestSpec) (b : Nat)
    (hb : spec.max_tokens = some b) :
    (maybeAdjustRequest spec 0).max_tokens = some b ∧
    (maybeAdjustRequest spec 1).max_tokens = some (min b 2048) ∧
    (maybeAdjustRequest spec 2).max_tokens = some (min b 1024) ∧
    (∀ n, 3 ≤ n → (maybeAdjustRequest spec n).max_tokens = some (min b 512)) ∧
    (∀ n m x y, n ≤ m →
      (maybeAdjustRequest spec n).max_tokens = some x →
      (maybeAdjustRequest spec m).max_tokens = some y → y ≤ x) ∧
    (∀ n x, (maybeAdjustRequest spec n).max_tokens = some x → x ≤ b) := by
  refine ⟨?_, ?_, ?_, ?_, ?_, ?_⟩
  · rw [maybeAdjustRequest_max_tokens spec b hb 0]
    simp
  · rw [maybeAdjustRequest_max_tokens spec b hb 1]
    simp
  · rw [maybeAdjustRequest_max_tokens spec b hb 2]
    simp
  · intro n h3
    rw [maybeAdjustRequest_max_tokens spec b hb n]
    have h1 : n ≠ 1 := by omega
    have h2 : n ≠ 2 := by omega
    rw [if_neg h1, if_neg h2, if_pos h3]
  · intro n m x y hnm hx hy
    rw [maybeAdjustRequest_max_tokens spec b hb n] at hx
    rw [maybeAdjustRequest_max_tokens spec b hb m] at hy
    have hx2 := Option.some_injective _ hx
    have hy2 := Option.some_injective _ hy
    subst hx2; subst hy2
    split_ifs <;> omega
  · intro n x hx
    rw [maybeAdjustRequest_max_tokens spec b hb n] at hx
    have hx2 := Option.some_injective _ hx
    subst hx2
    split_ifs <;> omega

/-- Witness for C5 at a concrete budget of 4096. -/
theorem c5_degrade_token_budget_witness :
    specTopModel.max_tokens = some 4096 ∧
    (maybeAdjustRequest specTopModel 1).max_tokens = some (min 4096 2048) :=
  ⟨rfl, (c5_degrade_token_budget specTopModel 4096 rfl).2.1⟩

/-- Counterexample to C6 as stated: for the chain's head model, attempt 2
degrades to the second chain entry (index 1) but attempt 3 yields the
original head model (index 0), so across attempts 2 < 3 the chain index of
the chosen model strictly decreases instead of being non-decreasing. -/
theorem c6_model_chain_counterexample :
    (maybeAdjustRequest specTopModel 2).model = some "qwen/qwen-2.5-32b-instruct" ∧
    (maybeAdjustRequest specTopModel 3).model = some "qwen/qwen-2.5-72b-instruct" ∧
    modelFallbackChain.indexOf "qwen/qwen-2.5-72b-instruct"
      < modelFallbackChain.indexOf "qwen/qwen-2.5-32b-instruct" := by
  decide

/-- Claim C6 (amended): restricted to the attempt numbers the retry loop
actually issues (attempt < `maxRetries` = 3), the model chosen by
`_maybe_adjust_request` for an in-chain model at index `i` has a chain
index that is monotone non-decreasing in the attempt number, stays at least
`i`, and steps at most one rung down the chain (index at most `i + 1`). -/
theorem c6_model_chain_amended (spec : RequestSpec) (mdl : String)
    (hm : spec.model = some mdl) (hchain : mdl ∈ modelFallbackChain) :
    (∀ n m a b, n ≤ m → m < maxRetries →
      (maybeAdjustRequest spec n).model = some a →
      (maybeAdjustRequest spec m).model = some b →
      modelFallbackChain.indexOf a ≤ modelFallbackChain.indexOf b) ∧
    (∀ n a, n < maxRetries → (maybeAdjustRequest spec n).model = some a →
      modelFallbackChain.indexOf mdl ≤ modelFallbackChain.indexOf a ∧
      modelFallbackChain.indexOf a ≤ modelFallbackChain.indexOf mdl + 1) := by
  have hstep : ∀ k, (maybeAdjustRequest spec k).model = modelStep (some mdl) k := by
    intro k
    rw [maybeAdjustRequest_model, hm]
  have hconst : ∀ k, k < maxRetries → modelStep (some mdl) k = modelStep (some mdl) 0 := by
    intro k hk
    have hk2 : k ≤ 2 := by
      have : k < 3 := hk
      omega
    simp only [modelStep]
    have hc : modelFallbackChain.contains mdl = true := by
      exact List.elem_eq_true_of_mem hchain
    rw [if_pos hc, if_pos hc]
    by_cases hlt : modelFallbackChain.indexOf mdl + 1 < modelFallbackChain.length
    · rw [if_pos ⟨hk2, hlt⟩, if_pos ⟨by omega, hlt⟩]
    · rw [if_neg (by tauto), if_neg (by tauto)]
  constructor
  · intro n m a b hnm hm3 ha hb
    rw [hstep, hconst n (by omega)] at ha
    rw [hstep, hconst m hm3] at hb
    rw [ha] at hb
    have hab := Option.some_injective _ hb
    subst hab
    exact le_refl _
  · intro n a hn ha
    rw [hstep, hconst n hn] at ha
    fin_cases hchain
    · rw [show modelStep (some "qwen/qwen-2.5-72b-instruct") 0
          = some "qwen/qwen-2.5-32b-instruct" by decide] at ha
      injection ha with h
      subst h
      decide
    · rw [show modelStep (some "qwen/qwen-2.5-32b-instruct") 0
          = some "meta-llama/llama-3.1-8b-instruct:free" by decide] at ha
      injection ha with h
      subst h
      decide
    · rw [show modelStep (some "meta-llama/llama-3.1-8b-instruct:free") 0
          = some "mistralai/mixtral-8x7b-instruct" by decide] at ha
      injection ha with h
      subst h
      decide
    · rw [show modelStep (some "mistralai/mixtral-8x7b-instruct") 0
          = some "mistralai/mixtral-8x7b-instruct" by decide] at ha
      injection ha with h
      subst h
      decide

/-- Witness for C6 (amended) at the chain's head model. -/
theorem c6_model_chain_amended_witness :
    specTopModel.model = some "qwen/qwen-2.5-72b-instruct" ∧
    ("qwen/qwen-2.5-72b-instruct" ∈ modelFallbackChain) ∧
    modelFallbackChain.indexOf "qwen/qwen-2.5-72b-instruct"
      ≤ modelFallbackChain.indexOf "qwen/qwen-2.5-32b-instruct" ∧
    modelFallbackChain.indexOf "qwen/qwen-2.5-32b-instruct"
      ≤ modelFallbackChain.indexOf "qwen/qwen-2.5-72b-instruct" + 1 := by
  refine ⟨rfl, by decide, ?_⟩
  exact (c6_model_chain_amended specTopModel "qwen/qwen-2.5-72b-instruct" rfl
    (by decide)).2 2 "qwen/qwen-2.5-32b-instruct" (by decide) (by decide)

/-- Claim C10: the classification checks the credit signals first, so any
error text whose lowercased form contains both a credit signal and a
rate-limit signal is classified as `InsufficientCredits`:
`credits_exhausted` is set with a 30-minute cooldown and `rate_limited` is
left unchanged. -/
theorem c10_credit_check_first (s : ManagerState) (key err : String) (now : Nat)
    (hc : (strContains (lowerAscii err) "402"
            || strContains (lowerAscii err) "payment required"
            || strContains (lowerAscii err) "credit") = true)
    (hlim : (strContains (lowerAscii err) "429"
            || strContains (lowerAscii err) "rate limit") = true) :
    classifyError err = ErrClass.insufficientCredits ∧
    ((handleApiError s key err now).key_usage_stats key).credits_exhausted = true ∧
    (handleApiError s key err now).key_cooldowns key = some (now + 30 * 60) ∧
    ((handleApiError s key err now).key_usage_stats key).rate_limited
      = (s.key_usage_stats key).rate_limited := by
  have hcl : classifyError err = ErrClass.insufficientCredits := by
    unfold classifyError
    rw [if_pos hc]
  refine ⟨hcl, ?_, ?_, ?_⟩ <;>
    simp [handleApiError, hcl, setStats, setCooldown]

/-- Witness for C10 at the concrete error text `402 rate limit`, which
carries both a credit signal and a rate-limit signal. -/
theorem c10_credit_check_first_witness :
    (strContains (lowerAscii "402 rate limit") "402"
      || strContains (lowerAscii "402 rate limit") "payment required"
      || strContains (lowerAscii "402 rate limit") "credit") = true ∧
    (strContains (lowerAscii "402 rate limit") "429"
      || strContains (lowerAscii "402 rate limit") "rate limit") = true ∧
    classifyError "402 rate limit" = ErrClass.insufficientCredits :=
  ⟨by decide, by decide,
   (c10_credit_check_first stateTwoReq "k1" "402 rate limit" 0
     (by decide) (by decide)).1⟩

/-- Counterexample to C8 as stated: in a reachable state whose single key
has a *stale* cooldown entry (expiry 10, current time 20) and clear flags,
the key is usable now (`isUsable` = true, so the claimed count is 1), yet
`get_api_status` tests only membership in the cooldown dict and reports
`available_keys = 0` and `degraded` health. -/
theorem c8_snapshot_counterexample :
    isUsable stateCooldown10 "k1" 20 = true ∧
    stateCooldown10.api_keys.countP (fun k => isUsable stateCooldown10 k 20) = 1 ∧
    (getApiStatus stateCooldown10).summary.available_keys = 0 ∧
    (getApiStatus stateCooldown10).summary.health_status = "degraded" := by
  decide

/-- Claim C8 (amended): `available_keys` counts the pool keys whose two
failure flags are clear and which have *no cooldown entry at all* (a stale
entry whose expiry has passed still makes the key count as unavailable,
because `get_api_status` only tests dict membership), and `health_status`
is `healthy` exactly when `available_keys > 0`. -/
theorem c8_snapshot_amended (s : ManagerState) :
    (getApiStatus s).summary.available_keys
      = s.api_keys.countP (fun k =>
          !(s.key_usage_stats k).credits_exhausted &&
          !(s.key_usage_stats k).rate_limited && (s.key_cooldowns k).isNone) ∧
    ((getApiStatus s).summary.health_status = "healthy"
      ↔ 0 < (getApiStatus s).summary.available_keys) := by
  have hcount : (getApiStatus s).summary.available_keys
      = s.api_keys.countP (fun k =>
          !(s.key_usage_stats k).credits_exhausted &&
          !(s.key_usage_stats k).rate_limited && (s.key_cooldowns k).isNone) := by
    simp only [getApiStatus]
    exact keysStatusList_countP s s.api_keys 0
  refine ⟨hcount, ?_⟩
  by_cases h : 0 < (keysStatusList s 0 s.api_keys).countP (fun e => e.available)
  · have hh : (getApiStatus s).summary.health_status = "healthy" := by
      simp only [getApiStatus]
      rw [if_pos h]
    have hp : 0 < (getApiStatus s).summary.available_keys := by
      simp only [getApiStatus]
      exact h
    exact ⟨fun _ => hp, fun _ => hh⟩
  · have hh : (getApiStatus s).summary.health_status = "degraded" := by
      simp only [getApiStatus]
      rw [if_neg h]
    have hp : ¬ 0 < (getApiStatus s).summary.available_keys := by
      simp only [getApiStatus]
      exact h
    constructor
    · intro hcon
      rw [hh] at hcon
      exact absurd hcon (by decide)
    · intro hpos
      exact absurd hpos hp

/-- Witness for C8 (amended): a fresh one-key pool reports healthy. -/
theorem c8_snapshot_amended_witness :
    (getApiStatus (initState ["k1"])).summary.health_status = "healthy" :=
  (c8_snapshot_amended (initState ["k1"])).2.mpr (by decide)

/-- Counterexample to C9 as stated: with 2 total requests and 1 total
error, the snapshot's `error_rate` is the percentage 50, not the ratio
1/2 the claim states. -/
theorem c9_error_rate_counterexample :
    (getApiStatus stateTwoReq).summary.total_requests = 2 ∧
    (getApiStatus stateTwoReq).summary.total_errors = 1 ∧
    (getApiStatus stateTwoReq).summary.error_rate = 50 ∧
    ((1 : ℚ) / 2 ≠ 50) := by
  refine ⟨by decide, by decide, ?_, by norm_num⟩
  simp [getApiStatus, stateTwoReq, freshStats]
  norm_num

/-- Claim C9 (amended): whenever the pool-wide total request count is
positive, `error_rate` equals `total_errors / total_requests * 100`, the
exact percentage of the summed per-credential counters. -/
theorem c9_error_rate_amended (s : ManagerState)
    (h : 0 < (getApiStatus s).summary.total_requests) :
    (getApiStatus s).summary.error_rate
      = ((getApiStatus s).summary.total_errors : ℚ)
        / ((getApiStatus s).summary.total_requests : ℚ) * 100 := by
  simp only [getApiStatus] at h ⊢
  rw [if_pos h]

/-- Witness for C9 (amended) on the 2-requests/1-error state. -/
theorem c9_error_rate_witness :
    0 < (getApiStatus stateTwoReq).summary.total_requests ∧
    (getApiStatus stateTwoReq).summary.error_rate
      = ((getApiStatus stateTwoReq).summary.total_errors : ℚ)
        / ((getApiStatus stateTwoReq).summary.total_requests : ℚ) * 100 :=
  ⟨by decide, c9_error_rate_amended stateTwoReq (by decide)⟩

/-- Counterexample to C7 as stated: `chat_completion` increments
`requests` and sets `last_used` *before* dispatching, so with a one-key
pool and a dispatch that fails every attempt (no attempt succeeds), the
key ends the run with `requests = 3` and `last_used` set, where the claim
predicts `requests = 0` and `last_used = none`. -/
theorem c7_usage_on_failure_counterexample :
    ((initState ["k1"]).key_usage_stats "k1").requests = 0 ∧
    ((initState ["k1"]).key_usage_stats "k1").last_used = none ∧
    ((chatCompletion alwaysFailDispatch (fun n => n)
        { model := none, max_tokens := none }
        (initState ["k1"])).finalState.key_usage_stats "k1").requests = 3 ∧
    ((chatCompletion alwaysFailDispatch (fun n => n)
        { model := none, max_tokens := none }
        (initState ["k1"])).finalState.key_usage_stats "k1").last_used = some 2 := by
  decide

/-- Claim C7 (amended): on *every* dispatch attempt the selected key's
`requests` counter is incremented and its `last_used` timestamp set before
the dispatch outcome is known (this is the `recordUsage` step of the retry
loop); a successful attempt then only advances the rotation pointer, and a
failed attempt additionally modifies only the selected key's `errors`
counter, flags and cooldown entry, leaving every other key's stats and
cooldown entry unchanged. -/
theorem c7_usage_recording_amended (s : ManagerState) (key err : String) (now : Nat) :
    ((recordUsage s key now).key_usage_stats key).requests
      = (s.key_usage_stats key).requests + 1 ∧
    ((recordUsage s key now).key_usage_stats key).last_used = some now ∧
    (rotateToNextKey (recordUsage s key now)).key_usage_stats
      = (recordUsage s key now).key_usage_stats ∧
    (rotateToNextKey (recordUsage s key now)).key_cooldowns = s.key_cooldowns ∧
    ((handleApiError (recordUsage s key now) key err now).key_usage_stats key).requests
      = (s.key_usage_stats key).requests + 1 ∧
    ((handleApiError (recordUsage s key now) key err now).key_usage_stats key).last_used
      = some now ∧
    ((handleApiError (recordUsage s key now) key err now).key_usage_stats key).errors
      = (s.key_usage_stats key).errors + 1 ∧
    (∀ k2, k2 ≠ key →
      (handleApiError (recordUsage s key now) key err now).key_usage_stats k2
        = s.key_usage_stats k2 ∧
      (handleApiError (recordUsage s key now) key err now).key_cooldowns k2
        = s.key_cooldowns k2) := by
  refine ⟨?_, ?_, rfl, rfl, ?_, ?_, ?_, ?_⟩
  · simp [recordUsage, setStats]
  · simp [recordUsage, setStats]
  · cases hcl : classifyError err <;>
      simp [recordUsage, handleApiError, hcl, setStats, setCooldown]
  · cases hcl : classifyError err <;>
      simp [recordUsage, handleApiError, hcl, setStats, setCooldown]
  · cases hcl : classifyError err <;>
      simp [recordUsage, handleApiError, hcl, setStats, setCooldown]
  · intro k2 hne
    cases hcl : classifyError err <;>
      simp [recordUsage, handleApiError, hcl, setStats, setCooldown, hne]

/-- Witness for C7 (amended): in a two-key pool, a failed attempt on `k1`
leaves `k2` untouched. -/
theorem c7_usage_recording_witness :
    ("k2" : String) ≠ "k1" ∧
    (handleApiError (recordUsage (initState ["k1", "k2"]) "k1" 5) "k1" "boom" 5).key_usage_stats "k2"
      = (initState ["k1", "k2"]).key_usage_stats "k2" :=
  ⟨by decide,
   ((c7_usage_recording_amended (initState ["k1", "k2"]) "k1" "boom" 5).2.2.2.2.2.2.2
     "k2" (by decide)).1⟩

/-! ### Selection lemmas (claims C2, C3) -/

/-- `indexOf` steps over a head that differs from the query. -/
theorem indexOf_cons_of_ne {α : Type} [DecidableEq α] (a b : α) (l : List α)
    (h : b ≠ a) : (a :: l).indexOf b = l.indexOf b + 1 := by
  rw [List.indexOf_cons]
  have hab : (a == b) = false := beq_eq_false_iff_ne.mpr (fun he => h he.symm)
  rw [hab]
  rfl

/-- The running minimum of Python's `min` either stays at the seed or
strictly improves on it. -/
theorem foldl_min_eq_or_lt {α : Type} (f : α → Nat) :
    ∀ (l : List α) (a : α),
      l.foldl (fun best k2 => if f k2 < f best then k2 else best) a = a ∨
      f (l.foldl (fun best k2 => if f k2 < f best then k2 else best) a) < f a := by
  intro l
  induction l with
  | nil => intro a; exact Or.inl rfl
  | cons b t ih =>
    intro a
    simp only [List.foldl_cons]
    by_cases hb : f b < f a
    · rw [if_pos hb]
      rcases ih b with h | h
      · right
        rw [h]
        exact hb
      · right
        exact lt_trans h hb
    · rw [if_neg hb]
      exact ih a

/-- The result of Python's `min` is one of the candidates. -/
theorem foldl_min_mem {α : Type} (f : α → Nat) :
    ∀ (l : List α) (a : α),
      l.foldl (fun best k2 => if f k2 < f best then k2 else best) a ∈ a :: l := by
  intro l
  induction l with
  | nil => intro a; exact List.mem_cons_self a []
  | cons b t ih =>
    intro a
    simp only [List.foldl_cons]
    by_cases hb : f b < f a
    · rw [if_pos hb]
      exact List.mem_cons_of_mem a (ih b)
    · rw [if_neg hb]
      rcases List.mem_cons.mp (ih a) with h | h
      · exact List.mem_cons.mpr (Or.inl h)
      · exact List.mem_cons.mpr (Or.inr (List.mem_cons_of_mem b h))

/-- The result of Python's `min` attains the minimum value. -/
theorem foldl_min_le {α : Type} (f : α → Nat) :
    ∀ (l : List α) (a : α) (k : α), k ∈ a :: l →
      f (l.foldl (fun best k2 => if f k2 < f best then k2 else best) a) ≤ f k := by
  intro l
  induction l with
  | nil =>
    intro a k hk
    simp only [List.foldl_nil]
    rcases List.mem_cons.mp hk with h | h
    · rw [h]
    · exact absurd h (List.not_mem_nil k)
  | cons b t ih =>
    intro a k hk
    simp only [List.foldl_cons]
    by_cases hb : f b < f a
    · rw [if_pos hb]
      rcases List.mem_cons.mp hk with h | h
      · have h1 : f (t.foldl (fun best k2 => if f k2 < f best then k2 else best) b) ≤ f b :=
          ih b b (List.mem_cons_self b t)
        rw [h]
        exact le_of_lt (lt_of_le_of_lt h1 hb)
      · exact ih b k h
    · rw [if_neg hb]
      rcases List.mem_cons.mp hk with h | h
      · refine ih a k ?_
        rw [h]
        exact List.mem_cons_self a t
      · rcases List.mem_cons.mp h with h2 | h2
        · have h1 : f (t.foldl (fun best k2 => if f k2 < f best then k2 else best) a) ≤ f a :=
            ih a a (List.mem_cons_self a t)
          rw [h2]
          exact le_trans h1 (le_of_not_lt hb)
        · exact ih a k (List.mem_cons_of_mem a h2)

/-- Python's `min` keeps the *first* element attaining the minimum: any
candidate with the same value sits at the same or a later position. -/
theorem foldl_min_first {α : Type} [DecidableEq α] (f : α → Nat) :
    ∀ (l : List α) (a : α) (k : α), k ∈ a :: l →
      f k = f (l.foldl (fun best k2 => if f k2 < f best then k2 else best) a) →
      (a :: l).indexOf (l.foldl (fun best k2 => if f k2 < f best then k2 else best) a)
        ≤ (a :: l).indexOf k := by
  intro l
  induction l with
  | nil =>
    intro a k hk hfk
    simp only [List.foldl_nil]
    rw [List.indexOf_cons_self]
    exact Nat.zero_le _
  | cons b t ih =>
    intro a k hk hfk
    simp only [List.foldl_cons] at hfk ⊢
    by_cases hb : f b < f a
    · rw [if_pos hb] at hfk ⊢
      have hrb : f (t.foldl (fun best k2 => if f k2 < f best then k2 else best) b) ≤ f b :=
        foldl_min_le f t b b (List.mem_cons_self b t)
      have hra : f (t.foldl (fun best k2 => if f k2 < f best then k2 else best) b) < f a :=
        lt_of_le_of_lt hrb hb
      have hrna : t.foldl (fun best k2 => if f k2 < f best then k2 else best) b ≠ a := by
        intro he
        rw [he] at hra
        omega
      have hkna : k ≠ a := by
        intro he
        rw [he] at hfk
        omega
      rcases List.mem_cons.mp hk with h | h
      · exact absurd h hkna
      · rw [indexOf_cons_of_ne a _ (b :: t) hrna, indexOf_cons_of_ne a k (b :: t) hkna]
        exact Nat.succ_le_succ (ih b k h hfk)
    · rw [if_neg hb] at hfk ⊢
      rcases foldl_min_eq_or_lt f t a with hr | hr
      · rw [hr, List.indexOf_cons_self]
        exact Nat.zero_le _
      · have hab : f a ≤ f b := le_of_not_lt hb
        have hrna : t.foldl (fun best k2 => if f k2 < f best then k2 else best) a ≠ a := by
          intro he
          rw [he] at hr
          omega
        have hrnb : t.foldl (fun best k2 => if f k2 < f best then k2 else best) a ≠ b := by
          intro he
          rw [he] at hr
          omega
        have hkna : k ≠ a := by
          intro he
          rw [he] at hfk
          omega
        have hknb : k ≠ b := by
          intro he
          rw [he] at hfk
          omega
        have hkt : k ∈ t := by
          rcases List.mem_cons.mp hk with h | h
          · exact absurd h hkna
          · rcases List.mem_cons.mp h with h2 | h2
            · exact absurd h2 hknb
            · exact h2
        have hstep := ih a k (List.mem_cons_of_mem a hkt) hfk
        rw [indexOf_cons_of_ne a _ t hrna, indexOf_cons_of_ne a k t hkna] at hstep
        rw [indexOf_cons_of_ne a _ (b :: t) hrna, indexOf_cons_of_ne a k (b :: t) hkna,
          indexOf_cons_of_ne b _ t hrnb, indexOf_cons_of_ne b k t hknb]
        omega

/-- A pool entry read in bounds is a member of the pool. -/
theorem keyAt_mem (s : ManagerState) (i : Nat) (h : i < s.api_keys.length) :
    keyAt s i ∈ s.api_keys := by
  unfold keyAt
  rw [List.getD_eq_getElem s.api_keys "" h]
  exact List.getElem_mem h

/-- The scan never changes the pool or the stats dict (it only rotates the
pointer and deletes expired cooldown entries). -/
theorem scanForKey_preserves (now : Nat) :
    ∀ (fuel : Nat) (s : ManagerState) (res : Option String) (s2 : ManagerState),
      scanForKey now s fuel = (res, s2) →
      s2.api_keys = s.api_keys ∧ s2.key_usage_stats = s.key_usage_stats := by
  intro fuel
  induction fuel with
  | zero =>
    intro s res s2 h
    cases h
    exact ⟨rfl, rfl⟩
  | succ n ih =>
    intro s res s2 h
    simp only [scanForKey] at h
    split at h
    · split at h
      · exact ih (rotateToNextKey s) _ _ h
      · split at h
        · cases h
          exact ⟨rfl, rfl⟩
        · exact ih (rotateToNextKey (setCooldown s (keyAt s s.current_key_index) none)) _ _ h
    · split at h
      · cases h
        exact ⟨rfl, rfl⟩
      · exact ih (rotateToNextKey s) _ _ h

/-- A key returned by the scan is a member of the pool. -/
theorem scanForKey_mem (now : Nat) :
    ∀ (fuel : Nat) (s : ManagerState) (k : String) (s2 : ManagerState),
      s.current_key_index < s.api_keys.length →
      scanForKey now s fuel = (some k, s2) → k ∈ s.api_keys := by
  intro fuel
  induction fuel with
  | zero =>
    intro s k s2 _ h
    exact Option.noConfusion (congrArg Prod.fst h)
  | succ n ih =>
    intro s k s2 hidx h
    have hlen : 0 < s.api_keys.length := by omega
    simp only [scanForKey] at h
    split at h
    · split at h
      · exact ih (rotateToNextKey s) _ _ (Nat.mod_lt _ hlen) h
      · split at h
        · cases h
          exact keyAt_mem s _ hidx
        · exact ih (rotateToNextKey (setCooldown s (keyAt s s.current_key_index) none)) _ _
            (Nat.mod_lt _ hlen) h
    · split at h
      · cases h
        exact keyAt_mem s _ hidx
      · exact ih (rotateToNextKey s) _ _ (Nat.mod_lt _ hlen) h

/-- The congruence used to transport `minErrorsKey` through states with
identical pool and stats. -/
theorem minErrorsKey_congr (s1 s2 : ManagerState)
    (h1 : s1.api_keys = s2.api_keys) (h2 : s1.key_usage_stats = s2.key_usage_stats) :
    minErrorsKey s1 = minErrorsKey s2 := by
  unfold minErrorsKey
  rw [h1, h2]

/-- `minErrorsKey` on a non-empty pool: membership, minimality of the error
count, and first-position tie-breaking. -/
theorem minErrorsKey_spec (s : ManagerState) (hne : s.api_keys ≠ []) :
    minErrorsKey s ∈ s.api_keys ∧
    (∀ k ∈ s.api_keys,
      (s.key_usage_stats (minErrorsKey s)).errors ≤ (s.key_usage_stats k).errors) ∧
    (∀ k ∈ s.api_keys,
      (s.key_usage_stats k).errors = (s.key_usage_stats (minErrorsKey s)).errors →
      s.api_keys.indexOf (minErrorsKey s) ≤ s.api_keys.indexOf k) := by
  rcases hpool : s.api_keys with _ | ⟨k0, ks⟩
  · exact absurd hpool hne
  · have hdef : minErrorsKey s
        = ks.foldl
            (fun best k2 =>
              if (s.key_usage_stats k2).errors < (s.key_usage_stats best).errors then k2
              else best) k0 := by
      unfold minErrorsKey
      rw [hpool]
    rw [hdef]
    refine ⟨foldl_min_mem (fun k => (s.key_usage_stats k).errors) ks k0, ?_, ?_⟩
    · intro k hk
      exact foldl_min_le (fun k => (s.key_usage_stats k).errors) ks k0 k hk
    · intro k hk hfk
      exact foldl_min_first (fun k => (s.key_usage_stats k).errors) ks k0 k hk hfk

/-- Claim C2: for a non-empty pool with the rotation pointer in range (an
invariant of every reachable state), `_get_next_available_key` is total and
returns a member of the pool; when the full scan finds no usable candidate
the fallback returns a key attaining the minimum error count, breaking ties
by lowest pool index. -/
theorem c2_select_key_total (s : ManagerState) (now : Nat)
    (hidx : s.current_key_index < s.api_keys.length) :
    (getNextAvailableKey s now).1 ∈ s.api_keys ∧
    ((scanForKey now s s.api_keys.length).1 = none →
      (∀ k ∈ s.api_keys,
        (s.key_usage_stats (getNextAvailableKey s now).1).errors
          ≤ (s.key_usage_stats k).errors) ∧
      (∀ k ∈ s.api_keys,
        (s.key_usage_stats k).errors
            = (s.key_usage_stats (getNextAvailableKey s now).1).errors →
          s.api_keys.indexOf (getNextAvailableKey s now).1 ≤ s.api_keys.indexOf k)) := by
  have hne : s.api_keys ≠ [] := by
    intro he
    rw [he] at hidx
    simp at hidx
  rcases hscan : scanForKey now s s.api_keys.length with ⟨res, s2⟩
  obtain ⟨hkeys, hstats⟩ := scanForKey_preserves now s.api_keys.length s res s2 hscan
  cases res with
  | some k =>
    have hres : (getNextAvailableKey s now).1 = k := by
      simp only [getNextAvailableKey, hscan]
    constructor
    · rw [hres]
      exact scanForKey_mem now s.api_keys.length s k s2 hidx hscan
    · intro hnone
      simp at hnone
  | none =>
    have hres : (getNextAvailableKey s now).1 = minErrorsKey s := by
      simp only [getNextAvailableKey, hscan]
      exact minErrorsKey_congr s2 s hkeys hstats
    rw [hres]
    obtain ⟨hmem, hmin, hfirst⟩ := minErrorsKey_spec s hne
    exact ⟨hmem, fun _ => ⟨hmin, hfirst⟩⟩

/-- A two-key pool in which every key is flagged, so the scan fails and the
fallback picks the key with fewer errors. -/
def stateFlagged : ManagerState :=
  { api_keys := ["k1", "k2"], current_key_index := 0
    key_usage_stats := fun k =>
      if k = "k1" then
        { requests := 0, errors := 2, last_used := none
          credits_exhausted := true, rate_limited := false }
      else
        { requests := 0, errors := 1, last_used := none
          credits_exhausted := true, rate_limited := false }
    key_cooldowns := fun _ => none }

/-- Witness for C2 on a pool whose keys are all flagged. -/
theorem c2_select_key_total_witness :
    stateFlagged.current_key_index < stateFlagged.api_keys.length ∧
    (getNextAvailableKey stateFlagged 0).1 ∈ stateFlagged.api_keys ∧
    (scanForKey 0 stateFlagged stateFlagged.api_keys.length).1 = none ∧
    (∀ k ∈ stateFlagged.api_keys,
      (stateFlagged.key_usage_stats (getNextAvailableKey stateFlagged 0).1).errors
        ≤ (stateFlagged.key_usage_stats k).errors) :=
  ⟨by decide, (c2_select_key_total stateFlagged 0 (by decide)).1, by decide,
   ((c2_select_key_total stateFlagged 0 (by decide)).2 (by decide)).1⟩

/-- A key with a live cooldown entry is not usable. -/
theorem isUsable_false_of_live_cooldown (s : ManagerState) (key : String) (now cu : Nat)
    (hcd : s.key_cooldowns key = some cu) (hlt : now < cu) :
    isUsable s key now = false := by
  unfold isUsable
  rw [hcd]
  simp [Nat.not_le.mpr hlt]

/-- A key with a failure flag set is not usable. -/
theorem isUsable_false_of_flags (s : ManagerState) (key : String) (now : Nat)
    (h : (!(s.key_usage_stats key).credits_exhausted
          && !(s.key_usage_stats key).rate_limited) = false) :
    isUsable s key now = false := by
  unfold isUsable
  cases hcd : s.key_cooldowns key <;>
    cases hce : (s.key_usage_stats key).credits_exhausted <;>
      cases hrl : (s.key_usage_stats key).rate_limited <;>
        simp_all

/-- Deleting another key's cooldown entry does not change usability. -/
theorem isUsable_setCooldown_ne (s : ManagerState) (key k2 : String) (c : Option Nat)
    (now : Nat) (h : k2 ≠ key) :
    isUsable (setCooldown s key c) k2 now = isUsable s k2 now := by
  unfold isUsable setCooldown
  simp [h]

/-- Soundness of the scan for cooldowns: a key it returns had no live
cooldown entry in the starting state (the entry was absent or already
expired — the scan only ever deletes entries, so a live entry would have
made it skip the key). -/
theorem scanForKey_no_live_cooldown (now : Nat) :
    ∀ (fuel : Nat) (s : ManagerState) (k : String) (s2 : ManagerState),
      scanForKey now s fuel = (some k, s2) →
      s.key_cooldowns k = none ∨ ∃ cu, s.key_cooldowns k = some cu ∧ cu ≤ now := by
  intro fuel
  induction fuel with
  | zero =>
    intro s k s2 h
    exact Option.noConfusion (congrArg Prod.fst h)
  | succ n ih =>
    intro s k s2 h
    simp only [scanForKey] at h
    split at h
    · rename_i cu heq
      split at h
      · exact ih (rotateToNextKey s) k _ h
      · rename_i hnlt
        split at h
        · cases h
          exact Or.inr ⟨cu, heq, Nat.le_of_not_lt hnlt⟩
        · have hres :=
            ih (rotateToNextKey (setCooldown s (keyAt s s.current_key_index) none)) k _ h
          by_cases hkk : k = keyAt s s.current_key_index
          · subst hkk
            exact Or.inr ⟨cu, heq, Nat.le_of_not_lt hnlt⟩
          · rcases hres with hc | ⟨cu2, hc, hle⟩
            · left
              simpa [rotateToNextKey, setCooldown, hkk] using hc
            · right
              exact ⟨cu2, by simpa [rotateToNextKey, setCooldown, hkk] using hc, hle⟩
    · rename_i heq
      split at h
      · cases h
        exact Or.inl heq
      · exact ih (rotateToNextKey s) k _ h

/-- Completeness of the scan: if some position within the remaining fuel
(counted in rotation order from the pointer) holds a usable key, the scan
returns a key. -/
theorem scanForKey_finds (now : Nat) :
    ∀ (fuel : Nat) (s : ManagerState),
      s.current_key_index < s.api_keys.length →
      (∃ j, j < fuel ∧
        isUsable s (keyAt s ((s.current_key_index + j) % s.api_keys.length)) now = true) →
      (scanForKey now s fuel).1.isSome = true := by
  intro fuel
  induction fuel with
  | zero =>
    intro s _ hex
    obtain ⟨j, hj, _⟩ := hex
    omega
  | succ n ih =>
    intro s hidx hex
    obtain ⟨j, hj, hus⟩ := hex
    have hlen : 0 < s.api_keys.length := by omega
    have harith :
        ((s.current_key_index + 1) % s.api_keys.length + (j - 1)) % s.api_keys.length
          = (s.current_key_index + j) % s.api_keys.length ∨ j = 0 := by
      rcases Nat.eq_zero_or_pos j with h0 | h0
      · exact Or.inr h0
      · left
        rw [Nat.mod_add_mod]
        congr 1
        omega
    simp only [scanForKey]
    split
    · rename_i cu heq
      split
      · rename_i hlt
        have hj0 : j ≠ 0 := by
          intro he
          subst he
          rw [Nat.add_zero, Nat.mod_eq_of_lt hidx] at hus
          rw [isUsable_false_of_live_cooldown s _ now cu heq hlt] at hus
          exact Bool.noConfusion hus
        rcases harith with harith | harith
        · refine ih (rotateToNextKey s) (Nat.mod_lt _ hlen) ⟨j - 1, by omega, ?_⟩
          show isUsable s
              (keyAt s (((s.current_key_index + 1) % s.api_keys.length + (j - 1))
                % s.api_keys.length)) now = true
          rw [harith]
          exact hus
        · exact absurd harith hj0
      · rename_i hnlt
        split
        · rfl
        · rename_i hfl
          have hfl2 : (!(s.key_usage_stats (keyAt s s.current_key_index)).credits_exhausted
              && !(s.key_usage_stats (keyAt s s.current_key_index)).rate_limited) = false :=
            Bool.eq_false_iff.mpr hfl
          have hj0 : j ≠ 0 := by
            intro he
            subst he
            rw [Nat.add_zero, Nat.mod_eq_of_lt hidx] at hus
            rw [isUsable_false_of_flags s _ now hfl2] at hus
            exact Bool.noConfusion hus
          rcases harith with harith | harith
          · refine ih (rotateToNextKey (setCooldown s (keyAt s s.current_key_index) none))
              (Nat.mod_lt _ hlen) ⟨j - 1, by omega, ?_⟩
            have hkw : keyAt s ((s.current_key_index + j) % s.api_keys.length)
                ≠ keyAt s s.current_key_index := by
              intro he
              rw [he] at hus
              rw [isUsable_false_of_flags s _ now hfl2] at hus
              exact Bool.noConfusion hus
            show isUsable (setCooldown s (keyAt s s.current_key_index) none)
                (keyAt s (((s.current_key_index + 1) % s.api_keys.length + (j - 1))
                  % s.api_keys.length)) now = true
            rw [harith]
            rw [isUsable_setCooldown_ne s _ _ none now hkw]
            exact hus
          · exact absurd harith hj0
    · rename_i heq
      split
      · rfl
      · rename_i hfl
        have hfl2 : (!(s.key_usage_stats (keyAt s s.current_key_index)).credits_exhausted
            && !(s.key_usage_stats (keyAt s s.current_key_index)).rate_limited) = false :=
          Bool.eq_false_iff.mpr hfl
        have hj0 : j ≠ 0 := by
          intro he
          subst he
          rw [Nat.add_zero, Nat.mod_eq_of_lt hidx] at hus
          rw [isUsable_false_of_flags s _ now hfl2] at hus
          exact Bool.noConfusion hus
        rcases harith with harith | harith
        · refine ih (rotateToNextKey s) (Nat.mod_lt _ hlen) ⟨j - 1, by omega, ?_⟩
          show isUsable s
              (keyAt s (((s.current_key_index + 1) % s.api_keys.length + (j - 1))
                % s.api_keys.length)) now = true
          rw [harith]
          exact hus
        · exact absurd harith hj0

/-- Every pool member sits at some in-bounds position. -/
theorem mem_keyAt_index (s : ManagerState) (k : String) (hk : k ∈ s.api_keys) :
    ∃ i, i < s.api_keys.length ∧ keyAt s i = k := by
  obtain ⟨i, hi, he⟩ := List.mem_iff_getElem.mp hk
  refine ⟨i, hi, ?_⟩
  unfold keyAt
  rw [List.getD_eq_getElem s.api_keys "" hi]
  exact he

/-- Counterexample to C3 as stated: with a one-key pool whose key `k1` has
a cooldown entry expiring at 10 and clear flags, `selectKey` at time 5 < 10
still returns `k1` — the full scan fails, and the minimum-error fallback
ignores cooldowns. -/
theorem c3_cooldown_counterexample :
    stateCooldown10.key_cooldowns "k1" = some 10 ∧
    (5 : Nat) < 10 ∧
    (getNextAvailableKey stateCooldown10 5).1 = "k1" := by
  decide

/-- Claim C3 (amended): a credential `bad` with a cooldown entry expiring
at `e` is never returned by `_get_next_available_key` at a time `now < e`
*provided some pool credential is usable at `now`* (so the minimum-error
fallback is not taken); and at `now ≥ e`, with both failure flags clear and
the rotation pointer at `bad`, the credential is selected again. -/
theorem c3_cooldown_amended (s : ManagerState) (bad : String) (e now : Nat)
    (hidx : s.current_key_index < s.api_keys.length)
    (hcd : s.key_cooldowns bad = some e) :
    (now < e → (∃ k, k ∈ s.api_keys ∧ isUsable s k now = true) →
      (getNextAvailableKey s now).1 ≠ bad) ∧
    (e ≤ now → keyAt s s.current_key_index = bad →
      (s.key_usage_stats bad).credits_exhausted = false →
      (s.key_usage_stats bad).rate_limited = false →
      (getNextAvailableKey s now).1 = bad) := by
  constructor
  · intro hlt husable
    obtain ⟨k, hk, hus⟩ := husable
    obtain ⟨i, hi, hki⟩ := mem_keyAt_index s k hk
    have hwitness : ∃ j, j < s.api_keys.length ∧
        isUsable s (keyAt s ((s.current_key_index + j) % s.api_keys.length)) now = true := by
      by_cases hle : s.current_key_index ≤ i
      · refine ⟨i - s.current_key_index, by omega, ?_⟩
        have hmod : (s.current_key_index + (i - s.current_key_index)) % s.api_keys.length
            = i := by
          rw [show s.current_key_index + (i - s.current_key_index) = i by omega]
          exact Nat.mod_eq_of_lt hi
        rw [hmod, hki]
        exact hus
      · refine ⟨i + s.api_keys.length - s.current_key_index, by omega, ?_⟩
        have hmod : (s.current_key_index
              + (i + s.api_keys.length - s.current_key_index)) % s.api_keys.length = i := by
          rw [show s.current_key_index + (i + s.api_keys.length - s.current_key_index)
              = i + s.api_keys.length by omega]
          rw [Nat.add_mod_right]
          exact Nat.mod_eq_of_lt hi
        rw [hmod, hki]
        exact hus
    have hfind := scanForKey_finds now s.api_keys.length s hidx hwitness
    intro heqbad
    rcases hscan : scanForKey now s s.api_keys.length with ⟨res, s2⟩
    rw [hscan] at hfind
    cases res with
    | none => simp at hfind
    | some k2 =>
      have hk2 : (getNextAvailableKey s now).1 = k2 := by
        simp only [getNextAvailableKey, hscan]
      rw [hk2] at heqbad
      subst heqbad
      have hsound := scanForKey_no_live_cooldown now s.api_keys.length s _ s2 hscan
      rcases hsound with hno | ⟨cu, hcu, hle2⟩
      · rw [hcd] at hno
        exact Option.noConfusion hno
      · rw [hcd] at hcu
        injection hcu with hecu
        omega
  · intro hle hkey hce hrl
    rcases hl : s.api_keys.length with _ | m
    · omega
    · have hscan1 : scanForKey now s (m + 1) = (some bad, setCooldown s bad none) := by
        simp only [scanForKey]
        rw [hkey]
        split
        · rename_i cu heq
          rw [hcd] at heq
          injection heq with hcue
          subst hcue
          split
          · rename_i hltc
            exact absurd hltc (by omega)
          · split
            · rfl
            · rename_i hflags
              rw [hce, hrl] at hflags
              exact absurd (by decide) hflags
        · rename_i heq
          rw [hcd] at heq
          exact Option.noConfusion heq
      have hscanfull : scanForKey now s s.api_keys.length
          = (some bad, setCooldown s bad none) := by
        rw [hl]
        exact hscan1
      simp only [getNextAvailableKey, hscanfull]

/-- A two-key pool in which `k1` is cooling down until time 10 and `k2` is
fully usable. -/
def stateTwoCooldown : ManagerState :=
  { api_keys := ["k1", "k2"], current_key_index := 0
    key_usage_stats := fun _ => freshStats
    key_cooldowns := fun k => if k = "k1" then some 10 else none }

/-- Witness for C3 (amended): before expiry the usable sibling is chosen
instead of `k1`; at expiry, with the pointer on `k1`, `k1` is chosen. -/
theorem c3_cooldown_witness :
    (getNextAvailableKey stateTwoCooldown 5).1 ≠ "k1" ∧
    (getNextAvailableKey stateCooldown10 20).1 = "k1" :=
  ⟨(c3_cooldown_amended stateTwoCooldown "k1" 10 5 (by decide) (by decide)).1 (by decide)
      ⟨"k2", by decide, by decide⟩,
   (c3_cooldown_amended stateCooldown10 "k1" 10 20 (by decide) (by decide)).2 (by decide)
      (by decide) (by decide) (by decide)⟩

/-! ### Retry-loop lemmas (claim C1) -/

/-- Shorthand constructor for ghost attempt records. -/
def mkRec (k : String) (o : Option String) : AttemptRec :=
  { key := k, outcome := o }

/-- A run of the retry loop that ends in `failure` used up all its fuel:
the trace grows by exactly `fuel` records, every one of them a failed
dispatch, and (when at least one attempt was made) the surfaced error is
the last record's error. -/
theorem chatCompletionAux_failure {R : Type}
    (dispatch : Nat → String → RequestSpec → Except String R)
    (times : Nat → Nat) (spec : RequestSpec) :
    ∀ (fuel : Nat) (s : ManagerState) (attempt : Nat) (lastErr : Option String)
      (tr : List AttemptRec) (e : String) (s2 : ManagerState) (tr2 : List AttemptRec),
      chatCompletionAux dispatch times spec s attempt fuel lastErr tr
        = CCOutcome.failure e s2 tr2 →
      ∃ ext, tr2 = tr ++ ext ∧ ext.length = fuel ∧
        (∀ q ∈ ext, q.outcome.isSome = true) ∧
        ((fuel = 0 ∧ e = lastErr.getD "") ∨
          (∃ rec2, ext.getLast? = some rec2 ∧ rec2.outcome = some e)) := by
  intro fuel
  induction fuel with
  | zero =>
    intro s attempt lastErr tr e s2 tr2 h
    injection h with h1 h2 h3
    refine ⟨[], ?_, rfl, ?_, Or.inl ⟨rfl, h1.symm⟩⟩
    · rw [← h3, List.append_nil]
    · intro q hq
      exact absurd hq (List.not_mem_nil q)
  | succ n ih =>
    intro s attempt lastErr tr e s2 tr2 h
    simp only [chatCompletionAux] at h
    split at h
    · exact CCOutcome.noConfusion h
    · rename_i e1 heq
      obtain ⟨ext1, htr, hlen, hall, hlast⟩ := ih _ _ _ _ _ _ _ h
      refine ⟨{ key := (getNextAvailableKey s (times attempt)).1, outcome := some e1 }
          :: ext1, ?_, ?_, ?_, ?_⟩
      · rw [htr]
        simp
      · simp [hlen]
      · intro q hq
        rcases List.mem_cons.mp hq with h2 | h2
        · rw [h2]
          rfl
        · exact hall q h2
      · right
        rcases hlast with ⟨hn0, he⟩ | ⟨rec2, hl, ho⟩
        · have hext1 : ext1 = [] := List.length_eq_zero.mp (hn0 ▸ hlen)
          subst hext1
          refine ⟨{ key := (getNextAvailableKey s (times attempt)).1, outcome := some e1 },
            rfl, ?_⟩
          rw [he]
          rfl
        · rcases hext : ext1 with _ | ⟨c, t⟩
          · rw [hext] at hl
            exact Option.noConfusion hl
          · rw [hext] at hl
            refine ⟨rec2, ?_, ho⟩
            rw [List.getLast?_cons_cons]
            exact hl

/-- A run of the retry loop that ends in `success` consists of some failed
attempts followed by one successful dispatch, whose result is the one
returned. -/
theorem chatCompletionAux_success {R : Type}
    (dispatch : Nat → String → RequestSpec → Except String R)
    (times : Nat → Nat) (spec : RequestSpec) :
    ∀ (fuel : Nat) (s : ManagerState) (attempt : Nat) (lastErr : Option String)
      (tr : List AttemptRec) (r : R) (s2 : ManagerState) (tr2 : List AttemptRec),
      chatCompletionAux dispatch times spec s attempt fuel lastErr tr
        = CCOutcome.success r s2 tr2 →
      ∃ ext x, tr2 = tr ++ ext ++ [x] ∧ ext.length < fuel ∧
        (∀ q ∈ ext, q.outcome.isSome = true) ∧
        x.outcome = none ∧
        dispatch (attempt + ext.length) x.key
          (maybeAdjustRequest spec (attempt + ext.length)) = Except.ok r := by
  intro fuel
  induction fuel with
  | zero =>
    intro s attempt lastErr tr r s2 tr2 h
    exact CCOutcome.noConfusion h
  | succ n ih =>
    intro s attempt lastErr tr r s2 tr2 h
    simp only [chatCompletionAux] at h
    split at h
    · rename_i r1 heq
      injection h with h1 h2 h3
      refine ⟨[], mkRec (getNextAvailableKey s (times attempt)).1 none,
        ?_, by simp, ?_, rfl, ?_⟩
      · rw [← h3]
        simp [mkRec]
      · intro q hq
        exact absurd hq (List.not_mem_nil q)
      · exact heq.trans (by rw [h1])
    · rename_i e1 heq
      obtain ⟨ext1, x, htr, hlen, hall, hx, hdx⟩ := ih _ _ _ _ _ _ _ h
      refine ⟨mkRec (getNextAvailableKey s (times attempt)).1 (some e1) :: ext1, x,
        ?_, ?_, ?_, hx, ?_⟩
      · rw [htr]
        simp [mkRec]
      · simp only [List.length_cons]
        omega
      · intro q hq
        rcases List.mem_cons.mp hq with h2 | h2
        · rw [h2]
          rfl
        · exact hall q h2
      · have hlist : (mkRec (getNextAvailableKey s (times attempt)).1 (some e1)
            :: ext1).length = ext1.length + 1 := rfl
        rw [hlist, show attempt + (ext1.length + 1) = attempt + 1 + ext1.length by omega]
        exact hdx

/-- Under a dispatch oracle that fails every attempt, the retry loop uses
all its fuel and surfaces the error of the last attempt made. -/
theorem chatCompletionAux_all_fail {R : Type}
    (dispatch : Nat → String → RequestSpec → Except String R)
    (times : Nat → Nat) (spec : RequestSpec) (E : Nat → String)
    (hd : ∀ (n : Nat) (k : String) (sp : RequestSpec), dispatch n k sp = Except.error (E n)) :
    ∀ (fuel : Nat), 0 < fuel →
      ∀ (s : ManagerState) (attempt : Nat) (lastErr : Option String) (tr : List AttemptRec),
      ∃ s2 ext, ext.length = fuel ∧
        chatCompletionAux dispatch times spec s attempt fuel lastErr tr
          = CCOutcome.failure (E (attempt + fuel - 1)) s2 (tr ++ ext) := by
  intro fuel
  induction fuel with
  | zero =>
    intro h
    omega
  | succ n ih =>
    intro _ s attempt lastErr tr
    rcases Nat.eq_zero_or_pos n with hn | hn
    · subst hn
      refine ⟨handleApiError
          (recordUsage (getNextAvailableKey s (times attempt)).2
            (getNextAvailableKey s (times attempt)).1 (times attempt))
          (getNextAvailableKey s (times attempt)).1 (E attempt) (times attempt),
        [mkRec (getNextAvailableKey s (times attempt)).1 (some (E attempt))],
        rfl, ?_⟩
      simp [chatCompletionAux, hd, mkRec]
    · obtain ⟨s2, ext, hlen, heq⟩ :=
        ih hn (handleApiError
            (recordUsage (getNextAvailableKey s (times attempt)).2
              (getNextAvailableKey s (times attempt)).1 (times attempt))
            (getNextAvailableKey s (times attempt)).1 (E attempt) (times attempt))
          (attempt + 1) (some (E attempt))
          (tr ++ [mkRec (getNextAvailableKey s (times attempt)).1 (some (E attempt))])
      refine ⟨s2, mkRec (getNextAvailableKey s (times attempt)).1 (some (E attempt)) :: ext,
        by simp [hlen], ?_⟩
      have hstep : chatCompletionAux dispatch times spec s attempt (n + 1) lastErr tr
          = chatCompletionAux dispatch times spec
              (handleApiError
                (recordUsage (getNextAvailableKey s (times attempt)).2
                  (getNextAvailableKey s (times attempt)).1 (times attempt))
                (getNextAvailableKey s (times attempt)).1 (E attempt) (times attempt))
              (attempt + 1) n (some (E attempt))
              (tr ++ [mkRec (getNextAvailableKey s (times attempt)).1 (some (E attempt))]) := by
        simp only [chatCompletionAux, hd]
        rfl
      rw [hstep, heq, show attempt + 1 + n - 1 = attempt + (n + 1) - 1 by omega,
        List.append_assoc]
      rfl

/-- Claim C1: `chat_completion` surfaces a terminal error iff all
`maxRetries = 3` dispatch attempts fail, and the surfaced error is the last
attempt's; a run that succeeds returns the successful dispatch's result
(its earlier attempts all having failed), and a permanently failing
dispatch oracle yields exactly 3 attempts followed by the last error. -/
theorem c1_retry_exhaustion {R : Type}
    (dispatch : Nat → String → RequestSpec → Except String R)
    (times : Nat → Nat) (spec : RequestSpec) (s : ManagerState)
    (hne : s.api_keys ≠ []) :
    (∀ e s2 tr, chatCompletion dispatch times spec s = CCOutcome.failure e s2 tr →
      tr.length = maxRetries ∧ (∀ q ∈ tr, q.outcome.isSome = true) ∧
      ∃ rec2, tr.getLast? = some rec2 ∧ rec2.outcome = some e) ∧
    (∀ r s2 tr, chatCompletion dispatch times spec s = CCOutcome.success r s2 tr →
      tr.length ≤ maxRetries ∧ (∀ q ∈ tr.dropLast, q.outcome.isSome = true) ∧
      ∃ rec2, tr.getLast? = some rec2 ∧ rec2.outcome = none ∧
        dispatch (tr.length - 1) rec2.key (maybeAdjustRequest spec (tr.length - 1))
          = Except.ok r) ∧
    (∀ E : Nat → String,
      (∀ (n : Nat) (k : String) (sp : RequestSpec), dispatch n k sp = Except.error (E n)) →
      ∃ s2 tr, chatCompletion dispatch times spec s = CCOutcome.failure (E 2) s2 tr ∧
        tr.length = maxRetries) := by
  refine ⟨?_, ?_, ?_⟩
  · intro e s2 tr h
    obtain ⟨ext, htr, hlen, hall, hlast⟩ :=
      chatCompletionAux_failure dispatch times spec maxRetries s 0 none [] e s2 tr h
    rw [List.nil_append] at htr
    subst htr
    rcases hlast with ⟨h30, _⟩ | ⟨rec2, hl, ho⟩
    · exact absurd h30 (by decide)
    · exact ⟨hlen, hall, rec2, hl, ho⟩
  · intro r s2 tr h
    obtain ⟨ext, x, htr, hlen, hall, hx, hdx⟩ :=
      chatCompletionAux_success dispatch times spec maxRetries s 0 none [] r s2 tr h
    rw [List.nil_append] at htr
    subst htr
    have hlen2 : (ext ++ [x]).length = ext.length + 1 := by simp
    refine ⟨?_, ?_, x, ?_, hx, ?_⟩
    · rw [hlen2]
      have : maxRetries = 3 := rfl
      omega
    · rw [List.dropLast_concat]
      exact hall
    · exact List.getLast?_concat ext
    · rw [hlen2, Nat.add_sub_cancel]
      rw [Nat.zero_add] at hdx
      exact hdx
  · intro E hd
    obtain ⟨s2, ext, hlen, heq⟩ :=
      chatCompletionAux_all_fail dispatch times spec E hd maxRetries (by decide) s 0 none []
    rw [List.nil_append] at heq
    exact ⟨s2, ext, heq, hlen⟩

/-- Witness for C1 on a one-key pool with a permanently failing dispatch. -/
theorem c1_retry_exhaustion_witness :
    (initState ["k1"]).api_keys ≠ [] ∧
    ∃ s2 tr, chatCompletion alwaysFailDispatch (fun n => n)
        { model := none, max_tokens := none } (initState ["k1"])
        = CCOutcome.failure "boom" s2 tr ∧ tr.length = maxRetries :=
  ⟨by decide,
   (c1_retry_exhaustion alwaysFailDispatch (fun n => n)
      { model := none, max_tokens := none } (initState ["k1"]) (by decide)).2.2
     (fun _ => "boom") (fun _ _ _ => rfl)⟩
